import Mathlib

/-
Verification of the loop_coalesce tutorial
(DirectProgramming/C++SYCL_FPGA/Tutorials/Features/loop_coalesce/src/loop_coalesce.cpp).

The program multiplies two fixed 4x4 float matrices with a simple
load/compute/store kernel, once instantiated with coalesce_factor = 1
(plain nested loops) and once with coalesce_factor = 2 (the two outer
loop levels merged into a single linear counter, per-level indices
recovered as c / 4 and c % 4), then checks both outputs against the
closed form i*j+1.

Embedding choices:
  - Buffers (the three std::vector<float> arguments and the device-side
    local arrays a, b, tmp) are modelled as total functions Nat -> Rat,
    updated pointwise.  Rational arithmetic is exact; for the values this
    program manipulates (non-negative integers bounded by 10, see the
    numeric-range theorem) IEEE single-precision arithmetic is also exact,
    so the embedding is faithful.
  - The loop_coalesce attribute only changes the loop control structure:
    the factor-1 kernel walks the nested row-major iteration list, the
    factor-2 kernel walks the single linear range [0,16) and recovers
    (i, j) as (c / 4, c % 4).  Each of the three kernel phases is a fold
    of one explicit step function over that iteration list, threading the
    kernel state (local arrays and the running linear index idx).
-/

namespace LoopCoalesce

/-- Matrix dimensions, from the constexpr declarations in the source. -/
def kNumRows : Nat := 4

def kNumCols : Nat := 4

def kNumElements : Nat := kNumRows * kNumCols

/-- Pointwise update of a one-dimensional buffer. -/
def wr (f : Nat → ℚ) (k : Nat) (v : ℚ) : Nat → ℚ :=
  fun n => if n = k then v else f n

/-- Pointwise update of a two-dimensional local array such as float a[4][4]. -/
def wr2 (f : Nat → Nat → ℚ) (i j : Nat) (v : ℚ) : Nat → Nat → ℚ :=
  fun i' j' => if i' = i then (if j' = j then v else f i' j') else f i' j'

/-- Device-side state of the kernel: the three local arrays and the shared
running linear index idx. -/
structure KernelState where
  a : Nat → Nat → ℚ
  b : Nat → Nat → ℚ
  tmp : Nat → Nat → ℚ
  idx : Nat

/-- Row-major iteration list of the untransformed doubly nested loop:
i outer over kNumRows, j inner over kNumCols. -/
def iterNested : List (Nat × Nat) :=
  (List.range kNumRows).flatMap (fun i => (List.range kNumCols).map (fun j => (i, j)))

/-- Index recovery of the factor-2 coalesced loop: a single linear counter c,
outer index c / kNumCols, inner index c % kNumCols. -/
def coalescedIndex (c : Nat) : Nat × Nat :=
  (c / kNumCols, c % kNumCols)

/-- Iteration list of the factor-2 coalesced loop: the linear range
[0, kNumRows*kNumCols) with per-level indices recovered by coalescedIndex. -/
def iterCoalesced : List (Nat × Nat) :=
  (List.range (kNumRows * kNumCols)).map coalescedIndex

/-- The iteration list selected by the coalesce factor: factor 2 merges the
two loop levels, factor 1 (the only other instantiated value) leaves the
nested structure untouched. -/
def iterFor (factor : Nat) : List (Nat × Nat) :=
  if factor = 2 then iterCoalesced else iterNested

/-- Load phase body: a[i][j] = A[idx]; b[i][j] = B[idx]; tmp[i][j] = 0; idx++. -/
def loadStep (A B : Nat → ℚ) (s : KernelState) (p : Nat × Nat) : KernelState :=
  { a := wr2 s.a p.1 p.2 (A s.idx),
    b := wr2 s.b p.1 p.2 (B s.idx),
    tmp := wr2 s.tmp p.1 p.2 0,
    idx := s.idx + 1 }

/-- Multiply phase body: sum = 0; for k in [0,kNumCols) sum += a[i][k]*b[k][j];
tmp[i][j] = sum.  The reduction loop over k is left uncoalesced, as in the
source. -/
def computeStep (s : KernelState) (p : Nat × Nat) : KernelState :=
  let sum := (List.range kNumCols).foldl (fun acc k => acc + s.a p.1 k * s.b k p.2) 0
  { s with tmp := wr2 s.tmp p.1 p.2 sum }

/-- Store phase body: res[idx] = tmp[i][j]; idx++.  The accumulator carries the
output buffer and the linear index, which the source resets to 0 before this
loop. -/
def storeStep (tmp : Nat → Nat → ℚ) (acc : (Nat → ℚ) × Nat) (p : Nat × Nat) :
    (Nat → ℚ) × Nat :=
  (wr acc.1 acc.2 (tmp p.1 p.2), acc.2 + 1)

/-- The kernel body: load, multiply, store, each phase walking the iteration
list selected by the coalesce factor.  a0, b0, tmp0 are the (uninitialized)
starting contents of the local arrays, res0 the prior contents of the output
buffer (the accessor is declared write_only, no_init). -/
def kernelRun (iter : List (Nat × Nat)) (A B : Nat → ℚ)
    (a0 b0 tmp0 : Nat → Nat → ℚ) (res0 : Nat → ℚ) : Nat → ℚ :=
  let s1 := iter.foldl (loadStep A B) ⟨a0, b0, tmp0, 0⟩
  let s2 := iter.foldl computeStep s1
  (iter.foldl (storeStep s2.tmp) (res0, 0)).1

/-- MatrixMultiply<coalesce_factor>: submit the kernel with the iteration
structure selected by the factor. -/
def MatrixMultiply (factor : Nat) (A B : Nat → ℚ)
    (a0 b0 tmp0 : Nat → Nat → ℚ) (res0 : Nat → ℚ) : Nat → ℚ :=
  kernelRun (iterFor factor) A B a0 b0 tmp0 res0

/-- The closed-form matrix product entry the spec states:
Result[i*N+j] = sum over m of A[i*N+m] * B[m*N+j]. -/
def mmEntry (A B : Nat → ℚ) (i j : Nat) : ℚ :=
  ∑ m ∈ Finset.range kNumCols, A (i * kNumCols + m) * B (m * kNumCols + j)

/-- The literal row-major iteration list. -/
theorem iterNested_eq :
    iterNested = [(0,0),(0,1),(0,2),(0,3),(1,0),(1,1),(1,2),(1,3),
                  (2,0),(2,1),(2,2),(2,3),(3,0),(3,1),(3,2),(3,3)] := by
  decide

/-- The coalesced iteration list coincides with the nested one. -/
theorem iterCoalesced_eq_iterNested : iterCoalesced = iterNested := by
  decide

/-- List.range 4 as a literal, used when expanding the reduction loop. -/
theorem range_four : List.range 4 = [0, 1, 2, 3] := by
  decide

set_option maxHeartbeats 3200000 in
/-- Master computation lemma: on the nested (factor-1) iteration structure,
for every linear position c of the output buffer, the kernel writes the
closed-form matrix-product entry for row c / 4 and column c % 4, whatever
the starting contents of the local arrays and of the output buffer. -/
theorem kernelRun_nested_apply (A B : Nat → ℚ) (a0 b0 tmp0 : Nat → Nat → ℚ)
    (res0 : Nat → ℚ) (c : Fin 16) :
    kernelRun iterNested A B a0 b0 tmp0 res0 c.val =
      mmEntry A B (c.val / 4) (c.val % 4) := by
  fin_cases c <;>
    simp [kernelRun, iterNested_eq, loadStep, computeStep, storeStep, wr, wr2,
      mmEntry, kNumCols, range_four, Finset.sum_range_succ,
      List.foldl_cons, List.foldl_nil]

/-- A zero-filled one-dimensional buffer: std::vector<float> of a given size
value-initializes every element to 0.0. -/
def zeroBuf : Nat → ℚ := fun _ => 0

/-- A zero two-dimensional array, used as one particular choice of starting
contents for the uninitialized device-side locals. -/
def zeroArr : Nat → Nat → ℚ := fun _ _ => 0

/-- matrix_a as main builds it: a zero vector with matrix_a[i + pos] = 1.0
for each row i, where pos = i * kNumCols. -/
def matrix_a : Nat → ℚ :=
  (List.range kNumRows).foldl (fun f i => wr f (i + i * kNumCols) 1) zeroBuf

/-- matrix_b as main builds it: matrix_b[pos + j] = i * j + 1 with
pos = i * kNumCols. -/
def matrix_b : Nat → ℚ :=
  (List.range kNumRows).foldl
    (fun f i =>
      (List.range kNumCols).foldl
        (fun g j => wr g (i * kNumCols + j) ((i * j + 1 : Nat) : ℚ)) f)
    zeroBuf

/-- The buffer main reads back from the factor-1 invocation. -/
def matrix_output_no_col : Nat → ℚ :=
  MatrixMultiply 1 matrix_a matrix_b zeroArr zeroArr zeroArr zeroBuf

/-- The buffer main reads back from the factor-2 invocation. -/
def matrix_output : Nat → ℚ :=
  MatrixMultiply 2 matrix_a matrix_b zeroArr zeroArr zeroArr zeroBuf

/-- The per-position failure condition of the correctness check in main:
val_noCol != i*j+1 || val != i*j+1 at buffer offset i * kNumCols + j. -/
def mismatchAt (out1 out2 : Nat → ℚ) (i j : Nat) : Prop :=
  out1 (i * kNumCols + j) ≠ ((i * j + 1 : Nat) : ℚ) ∨
  out2 (i * kNumCols + j) ≠ ((i * j + 1 : Nat) : ℚ)

instance (out1 out2 : Nat → ℚ) (i j : Nat) : Decidable (mismatchAt out1 out2 i j) := by
  unfold mismatchAt
  infer_instance

/-- One iteration of the correctness-check loop in main: on a mismatch it
prints a failure line and clears passed, otherwise it leaves the state
unchanged.  The state carries passed and the lines printed so far. -/
def checkStep (out1 out2 : Nat → ℚ) (s : Bool × List String) (p : Nat × Nat) :
    Bool × List String :=
  if mismatchAt out1 out2 p.1 p.2
  then (false, s.2 ++ ["FAILED: The results are incorrect"])
  else s

/-- The whole correctness-check loop of main, over the row-major double loop,
starting from passed = true and nothing printed. -/
def checkRun (out1 out2 : Nat → ℚ) : Bool × List String :=
  iterNested.foldl (checkStep out1 out2) (true, [])

/-- The final value of the passed flag. -/
def checkPassed (out1 out2 : Nat → ℚ) : Bool :=
  (checkRun out1 out2).1

/-- The value main returns given the two output buffers: 0 when passed,
-1 otherwise. -/
def mainExitWith (out1 out2 : Nat → ℚ) : Int :=
  if checkPassed out1 out2 then 0 else -1

/-- The lines main prints from the check onwards: the per-mismatch lines,
then either the PASSED line or the final FAILED line. -/
def mainMessages (out1 out2 : Nat → ℚ) : List String :=
  (checkRun out1 out2).2 ++
    (if checkPassed out1 out2 then ["PASSED: The results are correct"] else ["FAILED"])

/-- The exit code of the actual program run. -/
def mainExit : Int :=
  mainExitWith matrix_output_no_col matrix_output

/-- The three buffers a queue submission can touch, named after the source. -/
structure Buffers where
  buffer_in_a : Nat → ℚ
  buffer_in_b : Nat → ℚ
  buffer_out : Nat → ℚ

/-- Effect of one submission of MatrixMultiply<factor> on the three buffers:
the two read_only accessors leave the inputs untouched and the write_only,
no_init accessor replaces the output with what the kernel writes. -/
def kernelExec (factor : Nat) (a0 b0 tmp0 : Nat → Nat → ℚ) (bufs : Buffers) :
    Buffers :=
  { buffer_in_a := bufs.buffer_in_a,
    buffer_in_b := bufs.buffer_in_b,
    buffer_out := MatrixMultiply factor bufs.buffer_in_a bufs.buffer_in_b
      a0 b0 tmp0 bufs.buffer_out }

/-- Factor 1 leaves the nested loop structure untouched. -/
theorem iterFor_one : iterFor 1 = iterNested := rfl

/-- Factor 2 walks the coalesced range, which is the same pair list. -/
theorem iterFor_two : iterFor 2 = iterNested := by
  rw [iterFor, if_pos rfl, iterCoalesced_eq_iterNested]

/-- Either instantiated factor writes the closed-form product entry at every
linear output position, independently of the local arrays and of the prior
output contents. -/
theorem MatrixMultiply_linear (factor : Nat) (hf : factor = 1 ∨ factor = 2)
    (A B : Nat → ℚ) (a0 b0 tmp0 : Nat → Nat → ℚ) (res0 : Nat → ℚ) (c : Fin 16) :
    MatrixMultiply factor A B a0 b0 tmp0 res0 c.val =
      mmEntry A B (c.val / 4) (c.val % 4) := by
  have h := kernelRun_nested_apply A B a0 b0 tmp0 res0 c
  rcases hf with rfl | rfl
  · rw [MatrixMultiply, iterFor_one]
    exact h
  · rw [MatrixMultiply, iterFor_two]
    exact h

/-- Row-and-column form of MatrixMultiply_linear. -/
theorem MatrixMultiply_entry (factor : Nat) (hf : factor = 1 ∨ factor = 2)
    (A B : Nat → ℚ) (a0 b0 tmp0 : Nat → Nat → ℚ) (res0 : Nat → ℚ) (i j : Fin 4) :
    MatrixMultiply factor A B a0 b0 tmp0 res0 (i.val * 4 + j.val) =
      mmEntry A B i.val j.val := by
  have hi := i.isLt
  have hj := j.isLt
  have h := MatrixMultiply_linear factor hf A B a0 b0 tmp0 res0
    ⟨i.val * 4 + j.val, by omega⟩
  have hdiv : (i.val * 4 + j.val) / 4 = i.val := by omega
  have hmod : (i.val * 4 + j.val) % 4 = j.val := by omega
  rw [hdiv, hmod] at h
  exact h

/-- The initialized matrix_a is the 4x4 identity. -/
theorem matrix_a_val (i j : Fin 4) :
    matrix_a (i.val * 4 + j.val) = if i = j then (1 : ℚ) else 0 := by
  fin_cases i <;> fin_cases j <;>
    norm_num [matrix_a, wr, zeroBuf, range_four, kNumRows, kNumCols,
      List.foldl_cons, List.foldl_nil, Fin.ext_iff]

/-- The initialized matrix_b holds i*j+1 at row i, column j. -/
theorem matrix_b_val (i j : Fin 4) :
    matrix_b (i.val * 4 + j.val) = ((i.val * j.val + 1 : Nat) : ℚ) := by
  fin_cases i <;> fin_cases j <;>
    norm_num [matrix_b, wr, zeroBuf, range_four, kNumRows, kNumCols,
      List.foldl_cons, List.foldl_nil]

/-- On the fixed inputs of main, the closed-form product entry is i*j+1. -/
theorem mmEntry_fixed (i j : Fin 4) :
    mmEntry matrix_a matrix_b i.val j.val = ((i.val * j.val + 1 : Nat) : ℚ) := by
  fin_cases i <;> fin_cases j <;>
    norm_num [mmEntry, matrix_a, matrix_b, wr, zeroBuf, range_four,
      kNumRows, kNumCols, Finset.sum_range_succ, List.foldl_cons, List.foldl_nil]

/-- The passed flag survives the check loop exactly when it was set on entry
and no visited position mismatches. -/
theorem foldl_checkStep_fst (out1 out2 : Nat → ℚ) (l : List (Nat × Nat)) :
    ∀ s : Bool × List String,
      (l.foldl (checkStep out1 out2) s).1 = true ↔
        (s.1 = true ∧ ∀ p ∈ l, ¬ mismatchAt out1 out2 p.1 p.2) := by
  induction l with
  | nil =>
    intro s
    simp
  | cons p l ih =>
    intro s
    rw [List.foldl_cons, ih]
    by_cases h : mismatchAt out1 out2 p.1 p.2
    · simp [checkStep, h]
    · simp [checkStep, h]

/-- The check loop prints one failure line per mismatching visited position,
whatever the incoming state. -/
theorem foldl_checkStep_snd (out1 out2 : Nat → ℚ) (l : List (Nat × Nat)) :
    ∀ s : Bool × List String,
      (l.foldl (checkStep out1 out2) s).2.length =
        s.2.length + l.countP (fun p => decide (mismatchAt out1 out2 p.1 p.2)) := by
  induction l with
  | nil =>
    intro s
    simp
  | cons p l ih =>
    intro s
    rw [List.foldl_cons, ih]
    by_cases h : mismatchAt out1 out2 p.1 p.2
    · simp [checkStep, h, List.countP_cons]
      omega
    · simp [checkStep, h, List.countP_cons]

/-- Quantifying over the row-major pair list is quantifying over
[0,4) x [0,4). -/
theorem forall_iterNested (P : Nat → Nat → Prop) :
    (∀ p ∈ iterNested, P p.1 p.2) ↔ ∀ i j : Fin 4, P i.val j.val := by
  constructor
  · intro h i j
    refine h (i.val, j.val) ?_
    fin_cases i <;> fin_cases j <;> decide
  · intro h p hp
    obtain ⟨p1, p2⟩ := p
    have hb : p1 < 4 ∧ p2 < 4 := by
      rw [iterNested_eq] at hp
      simp [Prod.mk.injEq] at hp
      omega
    exact h ⟨p1, hb.1⟩ ⟨p2, hb.2⟩

/-- Counting over the row-major pair list is summing over [0,4) x [0,4). -/
theorem countP_iterNested (f : Nat × Nat → Bool) :
    iterNested.countP f =
      ∑ i ∈ Finset.range 4, ∑ j ∈ Finset.range 4, (if f (i, j) then 1 else 0) := by
  rw [iterNested_eq]
  simp only [List.countP_cons, List.countP_nil, Finset.sum_range_succ,
    Finset.sum_range_zero, zero_add, add_zero]
  ring

/-- Both output buffers of the actual run hold i*j+1 everywhere. -/
theorem output_entries (i j : Fin 4) :
    matrix_output_no_col (i.val * 4 + j.val) = ((i.val * j.val + 1 : Nat) : ℚ) ∧
    matrix_output (i.val * 4 + j.val) = ((i.val * j.val + 1 : Nat) : ℚ) := by
  constructor
  · rw [matrix_output_no_col, MatrixMultiply_entry 1 (Or.inl rfl), mmEntry_fixed]
  · rw [matrix_output, MatrixMultiply_entry 2 (Or.inr rfl), mmEntry_fixed]

/-- The actual run passes the correctness check. -/
theorem checkPassed_fixed : checkPassed matrix_output_no_col matrix_output = true := by
  rw [checkPassed, checkRun, foldl_checkStep_fst]
  refine ⟨rfl, ?_⟩
  rw [forall_iterNested (fun i j => ¬ mismatchAt matrix_output_no_col matrix_output i j)]
  intro i j
  simp only [mismatchAt, kNumCols]
  push_neg
  exact ⟨(output_entries i j).1, (output_entries i j).2⟩

/-- After the load phase the working array a holds the input matrix A,
whatever the arrays held before. -/
theorem load_phase_a (A B : Nat → ℚ) (a0 b0 tmp0 : Nat → Nat → ℚ) (i j : Fin 4) :
    (iterNested.foldl (loadStep A B) ⟨a0, b0, tmp0, 0⟩).a i.val j.val =
      A (i.val * 4 + j.val) := by
  fin_cases i <;> fin_cases j <;>
    simp [iterNested_eq, loadStep, wr2, List.foldl_cons, List.foldl_nil]

/-- After the load phase the working array b holds the input matrix B. -/
theorem load_phase_b (A B : Nat → ℚ) (a0 b0 tmp0 : Nat → Nat → ℚ) (i j : Fin 4) :
    (iterNested.foldl (loadStep A B) ⟨a0, b0, tmp0, 0⟩).b i.val j.val =
      B (i.val * 4 + j.val) := by
  fin_cases i <;> fin_cases j <;>
    simp [iterNested_eq, loadStep, wr2, List.foldl_cons, List.foldl_nil]

/-- The device-side state after the load phase of the actual run, starting
the local arrays from one particular (zero) uninitialized content. -/
def loadedState : KernelState :=
  iterNested.foldl (loadStep matrix_a matrix_b) ⟨zeroArr, zeroArr, zeroArr, 0⟩

/-- Entries of the loaded a array, as plain naturals: the identity pattern. -/
theorem loadedState_a_val (i k : Nat) (hi : i < 4) (hk : k < 4) :
    loadedState.a i k = ((if i = k then 1 else 0 : Nat) : ℚ) := by
  have h := load_phase_a matrix_a matrix_b zeroArr zeroArr zeroArr ⟨i, hi⟩ ⟨k, hk⟩
  rw [loadedState, h, matrix_a_val ⟨i, hi⟩ ⟨k, hk⟩]
  by_cases hik : i = k
  · simp [hik, Fin.ext_iff]
  · simp [hik, Fin.ext_iff]

/-- Entries of the loaded b array, as plain naturals: k*j+1. -/
theorem loadedState_b_val (k j : Nat) (hk : k < 4) (hj : j < 4) :
    loadedState.b k j = ((k * j + 1 : Nat) : ℚ) := by
  have h := load_phase_b matrix_a matrix_b zeroArr zeroArr zeroArr ⟨k, hk⟩ ⟨j, hj⟩
  rw [loadedState, h, matrix_b_val ⟨k, hk⟩ ⟨j, hj⟩]

/-- The running value of sum inside the reduction loop at row i, column j,
after the first t of the 4 products have been accumulated, in the actual
run. -/
def partialSum (i j t : Nat) : ℚ :=
  ((List.range kNumCols).take t).foldl
    (fun acc k => acc + loadedState.a i k * loadedState.b k j) 0

/-- Closed form of every reduction-loop partial sum in the actual run: zero
until the diagonal product is added, i*j+1 afterwards. -/
theorem partialSum_fixed (i j : Fin 4) (t : Fin 5) :
    partialSum i.val j.val t.val =
      ((if i.val < t.val then i.val * j.val + 1 else 0 : Nat) : ℚ) := by
  fin_cases i <;> fin_cases j <;> fin_cases t <;>
    norm_num [partialSum, range_four, kNumCols, List.take_succ_cons,
      List.foldl_cons, List.foldl_nil, loadedState_a_val, loadedState_b_val]

/-- C1: for the fixed inputs A = identity(4) and B[i,j] = i*j+1, every element
of the result computed by the kernel is i*j+1, for all (i,j) in [0,4)x[0,4),
for both the factor=1 and the factor=2 invocation, whatever the uninitialized
local arrays and the output buffer held beforehand. -/
theorem fixed_run_result_closed_form (a0 b0 tmp0 : Nat → Nat → ℚ)
    (res0 : Nat → ℚ) (i j : Fin 4) :
    MatrixMultiply 1 matrix_a matrix_b a0 b0 tmp0 res0 (i.val * 4 + j.val) =
        ((i.val * j.val + 1 : Nat) : ℚ) ∧
    MatrixMultiply 2 matrix_a matrix_b a0 b0 tmp0 res0 (i.val * 4 + j.val) =
        ((i.val * j.val + 1 : Nat) : ℚ) := by
  constructor
  · rw [MatrixMultiply_entry 1 (Or.inl rfl), mmEntry_fixed]
  · rw [MatrixMultiply_entry 2 (Or.inr rfl), mmEntry_fixed]

/-- C2: for every pair of input matrices and every starting buffer contents,
the factor-2 kernel writes exactly what the factor-1 kernel writes, element
for element: coalescing never alters the computed values. -/
theorem coalescing_preserves_output (A B : Nat → ℚ) (a0 b0 tmp0 : Nat → Nat → ℚ)
    (res0 : Nat → ℚ) (k : Fin 16) :
    MatrixMultiply 2 A B a0 b0 tmp0 res0 k.val =
      MatrixMultiply 1 A B a0 b0 tmp0 res0 k.val := by
  rw [MatrixMultiply, MatrixMultiply, iterFor_one, iterFor_two]

/-- C3: for every pair of input matrices and either coalescing factor, the
kernel leaves Result[i*4+j] equal to the inner product of row i of A with
column j of B. -/
theorem kernel_entries_are_inner_products (A B : Nat → ℚ)
    (a0 b0 tmp0 : Nat → Nat → ℚ) (res0 : Nat → ℚ) (i j : Fin 4) :
    MatrixMultiply 1 A B a0 b0 tmp0 res0 (i.val * 4 + j.val) =
        (∑ m ∈ Finset.range 4, A (i.val * 4 + m) * B (m * 4 + j.val)) ∧
    MatrixMultiply 2 A B a0 b0 tmp0 res0 (i.val * 4 + j.val) =
        (∑ m ∈ Finset.range 4, A (i.val * 4 + m) * B (m * 4 + j.val)) := by
  constructor
  · rw [MatrixMultiply_entry 1 (Or.inl rfl)]
    rfl
  · rw [MatrixMultiply_entry 2 (Or.inr rfl)]
    rfl

/-- C4: the factor-2 index-recovery map c to (c/4, c%4) over [0,16) yields
exactly the iteration list of the unmerged row-major double loop, visits
every pair of [0,4)x[0,4) exactly once, and at each linear position c
recovers precisely the pair the unmerged loop produces at its c-th
iteration. -/
theorem coalesced_index_recovery :
    iterCoalesced = iterNested ∧
    (∀ i j : Fin 4, iterCoalesced.count (i.val, j.val) = 1) ∧
    (∀ c : Fin 16, coalescedIndex c.val = iterNested.getD c.val (0, 0)) := by
  refine ⟨iterCoalesced_eq_iterNested, ?_, ?_⟩ <;> decide

/-- C5: the orchestrator initialization yields exactly the two matrices the
spec names: matrix_a is identity(4) and matrix_b[i*4+j] = i*j+1. -/
theorem input_matrices_initialized (i j : Fin 4) :
    matrix_a (i.val * 4 + j.val) = (if i = j then (1 : ℚ) else 0) ∧
    matrix_b (i.val * 4 + j.val) = ((i.val * j.val + 1 : Nat) : ℚ) :=
  ⟨matrix_a_val i j, matrix_b_val i j⟩

/-- C6: the exit value is 0 exactly when every element of both result buffers
equals i*j+1, in which case the PASSED line is printed; any mismatch makes it
-1; and the actual run exits 0. -/
theorem exit_code_reflects_check (out1 out2 : Nat → ℚ) :
    (mainExitWith out1 out2 = 0 ↔
      ∀ i j : Fin 4,
        out1 (i.val * 4 + j.val) = ((i.val * j.val + 1 : Nat) : ℚ) ∧
        out2 (i.val * 4 + j.val) = ((i.val * j.val + 1 : Nat) : ℚ)) ∧
    ((∃ i j : Fin 4,
        ¬(out1 (i.val * 4 + j.val) = ((i.val * j.val + 1 : Nat) : ℚ) ∧
          out2 (i.val * 4 + j.val) = ((i.val * j.val + 1 : Nat) : ℚ))) →
      mainExitWith out1 out2 = -1) ∧
    (mainExitWith out1 out2 = 0 →
      "PASSED: The results are correct" ∈ mainMessages out1 out2) ∧
    mainExit = 0 := by
  have hpass : checkPassed out1 out2 = true ↔
      ∀ i j : Fin 4,
        out1 (i.val * 4 + j.val) = ((i.val * j.val + 1 : Nat) : ℚ) ∧
        out2 (i.val * 4 + j.val) = ((i.val * j.val + 1 : Nat) : ℚ) := by
    rw [checkPassed, checkRun, foldl_checkStep_fst]
    simp only [true_and]
    rw [forall_iterNested (fun i j => ¬ mismatchAt out1 out2 i j)]
    refine forall_congr' fun i => forall_congr' fun j => ?_
    simp [mismatchAt, kNumCols, not_or]
  refine ⟨?_, ?_, ?_, ?_⟩
  · rw [mainExitWith]
    by_cases hc : checkPassed out1 out2 = true
    · simp only [hc, if_true]
      simp only [← hpass, hc]
    · simp only [hc, if_false]
      constructor
      · intro h
        exact absurd h (by decide)
      · intro h
        exact absurd (hpass.mpr h) hc
  · intro ⟨i, j, hij⟩
    rw [mainExitWith]
    have hc : ¬ checkPassed out1 out2 = true := by
      intro hc
      exact hij (hpass.mp hc i j)
    simp [hc]
  · intro h0
    have hc : checkPassed out1 out2 = true := by
      by_contra hc
      rw [mainExitWith] at h0
      simp [hc] at h0
    simp [mainMessages, hc]
  · rw [mainExit, mainExitWith, checkPassed_fixed]
    rfl

/-- C7: the check loop visits all 16 positions: it prints one failure line
for every mismatching position of either buffer, however many mismatch, and
its final flag reflects all positions. -/
theorem check_examines_all_positions (out1 out2 : Nat → ℚ) :
    (checkRun out1 out2).2.length =
      (∑ i ∈ Finset.range 4, ∑ j ∈ Finset.range 4,
        if mismatchAt out1 out2 i j then 1 else 0) ∧
    ((checkRun out1 out2).1 = true ↔
      ∀ i j : Fin 4, ¬ mismatchAt out1 out2 i.val j.val) := by
  constructor
  · rw [checkRun, foldl_checkStep_snd, countP_iterNested]
    simp
  · rw [checkRun, foldl_checkStep_fst]
    simp only [true_and]
    exact forall_iterNested (fun i j => ¬ mismatchAt out1 out2 i j)

/-- C8: a submission never writes the two input buffers, and the store phase
overwrites every one of the 16 output elements, so no prior output content
is observable: the result is the same whatever the output buffer held. -/
theorem buffer_access_discipline (a0 b0 tmp0 : Nat → Nat → ℚ) (bufs : Buffers) :
    ((kernelExec 1 a0 b0 tmp0 bufs).buffer_in_a = bufs.buffer_in_a ∧
     (kernelExec 1 a0 b0 tmp0 bufs).buffer_in_b = bufs.buffer_in_b ∧
     (kernelExec 2 a0 b0 tmp0 bufs).buffer_in_a = bufs.buffer_in_a ∧
     (kernelExec 2 a0 b0 tmp0 bufs).buffer_in_b = bufs.buffer_in_b) ∧
    (∀ res0 res0' : Nat → ℚ, ∀ k : Fin 16,
      MatrixMultiply 1 bufs.buffer_in_a bufs.buffer_in_b a0 b0 tmp0 res0 k.val =
        MatrixMultiply 1 bufs.buffer_in_a bufs.buffer_in_b a0 b0 tmp0 res0' k.val ∧
      MatrixMultiply 2 bufs.buffer_in_a bufs.buffer_in_b a0 b0 tmp0 res0 k.val =
        MatrixMultiply 2 bufs.buffer_in_a bufs.buffer_in_b a0 b0 tmp0 res0' k.val) := by
  refine ⟨⟨rfl, rfl, rfl, rfl⟩, ?_⟩
  intro res0 res0' k
  constructor
  · rw [MatrixMultiply_linear 1 (Or.inl rfl), MatrixMultiply_linear 1 (Or.inl rfl)]
  · rw [MatrixMultiply_linear 2 (Or.inr rfl), MatrixMultiply_linear 2 (Or.inr rfl)]

/-- C9: the kernel is deterministic: for either factor, the written output
depends only on the input matrices and the factor, not on the prior contents
of the output buffer or of the local arrays a, b, tmp. -/
theorem kernel_deterministic (A B : Nat → ℚ)
    (a0 b0 tmp0 a0' b0' tmp0' : Nat → Nat → ℚ) (res0 res0' : Nat → ℚ)
    (k : Fin 16) :
    MatrixMultiply 1 A B a0 b0 tmp0 res0 k.val =
      MatrixMultiply 1 A B a0' b0' tmp0' res0' k.val ∧
    MatrixMultiply 2 A B a0 b0 tmp0 res0 k.val =
      MatrixMultiply 2 A B a0' b0' tmp0' res0' k.val := by
  constructor
  · rw [MatrixMultiply_linear 1 (Or.inl rfl), MatrixMultiply_linear 1 (Or.inl rfl)]
  · rw [MatrixMultiply_linear 2 (Or.inr rfl), MatrixMultiply_linear 2 (Or.inr rfl)]

/-- C10: every value the final comparison can see is a non-negative integer
at most 10: the inputs, every product and running partial sum of the
reduction loop, both outputs, and the expected value i*j+1.  Such integers
are exactly representable in single-precision float, so the exact
floating-point comparisons of the source are decided without rounding. -/
theorem comparison_values_small_naturals (i j : Fin 4) :
    (∃ na nb : Nat, na ≤ 10 ∧ nb ≤ 10 ∧
      matrix_a (i.val * 4 + j.val) = (na : ℚ) ∧
      matrix_b (i.val * 4 + j.val) = (nb : ℚ)) ∧
    (∀ k : Fin 4, ∃ n : Nat, n ≤ 10 ∧
      loadedState.a i.val k.val * loadedState.b k.val j.val = (n : ℚ)) ∧
    (∀ t : Fin 5, ∃ n : Nat, n ≤ 10 ∧ partialSum i.val j.val t.val = (n : ℚ)) ∧
    (∃ n : Nat, n ≤ 10 ∧
      matrix_output_no_col (i.val * 4 + j.val) = (n : ℚ) ∧
      matrix_output (i.val * 4 + j.val) = (n : ℚ) ∧
      ((i.val * j.val + 1 : Nat) : ℚ) = (n : ℚ)) := by
  have hi := i.isLt
  have hj := j.isLt
  have hij : i.val * j.val ≤ 9 :=
    le_trans (Nat.mul_le_mul (show i.val ≤ 3 by omega) (show j.val ≤ 3 by omega))
      (by norm_num)
  refine ⟨⟨if i = j then 1 else 0, i.val * j.val + 1, ?_, by omega, ?_, matrix_b_val i j⟩,
    ?_, ?_, ?_⟩
  · by_cases h : i = j <;> simp [h]
  · rw [matrix_a_val]
    by_cases h : i = j <;> simp [h]
  · intro k
    have hk := k.isLt
    have hkj : k.val * j.val ≤ 9 :=
      le_trans (Nat.mul_le_mul (show k.val ≤ 3 by omega) (show j.val ≤ 3 by omega))
        (by norm_num)
    refine ⟨if i.val = k.val then k.val * j.val + 1 else 0, ?_, ?_⟩
    · by_cases h : i.val = k.val
      · simp only [h, if_true]
        omega
      · simp [h]
    · rw [loadedState_a_val i.val k.val hi hk, loadedState_b_val k.val j.val hk hj]
      by_cases h : i.val = k.val <;> simp [h]
  · intro t
    refine ⟨if i.val < t.val then i.val * j.val + 1 else 0, ?_, ?_⟩
    · by_cases h : i.val < t.val
      · simp only [h, if_true]
        omega
      · simp [h]
    · rw [partialSum_fixed]
  · exact ⟨i.val * j.val + 1, by omega, (output_entries i j).1, (output_entries i j).2, rfl⟩

end LoopCoalesce
